import Mathlib

/-!
PicoCrypt FPV: the synchronised line cipher

A shallow embedding of the cipher core of `picocrypt_sender.c` and
`picocrypt_receiver.c`: the Xorshift128+ keystream generator, the per-frame
resynchronisation, the line transform and the frame-sync handling of both
roles.

Conventions of the embedding:

* `uint64_t`, `uint32_t` and `uint8_t` values are natural numbers; every place
  where the C arithmetic can leave the width carries an explicit `% 2 ^ w`.
* The global `sender_prng` / `receiver_prng` is passed in and returned.
* A byte buffer is a `List Nat` of bytes; a 32-bit access through the
  `uint32_t*` cast reads and writes four bytes in little-endian order, the byte
  order of the RP2040.
* `PRESHARED_KEY` and `VIDEO_WIDTH` are configuration macros; the functions
  that use them take them as arguments.
* `printf` and the peripheral calls (DMA, PIO, FIFO) carry no cipher state and
  are left out.
-/

/-- The `prng_state_t` struct, declared identically in both source files:
`state[0]`, `state[1]`, `initial_seed` (all `uint64_t`) and `sync_counter`
(`uint32_t`). -/
structure prng_state_t where
  state0 : Nat
  state1 : Nat
  initial_seed : Nat
  sync_counter : Nat
  deriving DecidableEq, Repr

/-- The value of the `PRESHARED_KEY` macro in both source files. -/
def PRESHARED_KEY : Nat := 0x123456789ABCDEF0

/-- The value of the `VIDEO_WIDTH` macro in both source files. -/
def VIDEO_WIDTH : Nat := 720

/-- Little-endian read of a `uint32_t` from the first four bytes of a buffer
(`in_32[i]`); bytes past the end of the list read as 0. -/
def load32 (buf : List Nat) : Nat :=
  buf.getD 0 0 + 2 ^ 8 * buf.getD 1 0 + 2 ^ 16 * buf.getD 2 0 + 2 ^ 24 * buf.getD 3 0

/-- Little-endian write of a `uint32_t` as four bytes (`out_32[i] = w`). -/
def store32 (w : Nat) : List Nat :=
  [w % 2 ^ 8, w / 2 ^ 8 % 2 ^ 8, w / 2 ^ 16 % 2 ^ 8, w / 2 ^ 24 % 2 ^ 8]

namespace Sender

/-- Function `xorshift128_plus` of `picocrypt_sender.c`: the returned `uint64_t` and the
updated generator. -/
def xorshift128_plus (prng : prng_state_t) : Nat × prng_state_t :=
  let x := prng.state0
  let y := prng.state1
  let x := x ^^^ ((x <<< 23) % 2 ^ 64)
  let x := x ^^^ (x >>> 17)
  let x := x ^^^ (y ^^^ (y >>> 26))
  ((x + y) % 2 ^ 64, { prng with state0 := y, state1 := x })

/-- The warm-up loop `for (int i = 0; i < n; i++) (void)xorshift128_plus(prng);`. -/
def warm_up : Nat → prng_state_t → prng_state_t
  | 0, prng => prng
  | n + 1, prng => warm_up n (xorshift128_plus prng).2

/-- Function `init_encryption`: overwrite all four fields of `sender_prng` from the key,
then run the 10 warm-up steps. -/
def init_encryption (key : Nat) (sender_prng : prng_state_t) : prng_state_t :=
  let p := { sender_prng with state0 := key ^^^ 0xBF58476D1CE4E5B9 }
  let p := { p with state1 := key ^^^ 0x94D049BB133111EB }
  let p := { p with initial_seed := key }
  let p := { p with sync_counter := 0 }
  warm_up 10 p

/-- Function `sync_encryption_on_vsync`: reset the two state words from `initial_seed`,
increment the 32-bit `sync_counter`, fold the constant into `initial_seed`
when the counter is a multiple of 60, then run the 10 warm-up steps. -/
def sync_encryption_on_vsync (prng : prng_state_t) : prng_state_t :=
  let p := { prng with state0 := prng.initial_seed ^^^ 0xBF58476D1CE4E5B9 }
  let p := { p with state1 := p.initial_seed ^^^ 0x94D049BB133111EB }
  let p := { p with sync_counter := (p.sync_counter + 1) % 2 ^ 32 }
  let p := if p.sync_counter % 60 = 0 then
      { p with initial_seed := p.initial_seed ^^^ 0xAAAAAAAA55555555 }
    else p
  warm_up 10 p

/-- The word loop of `encrypt_line`: `len_32` iterations of
`out_32[i] = in_32[i] ^ (uint32_t)xorshift128_plus(&sender_prng)`; `input` is
the buffer from group `i` on. -/
def encrypt_words : Nat → prng_state_t → List Nat → List Nat × prng_state_t
  | 0, prng, _ => ([], prng)
  | n + 1, prng, input =>
    let r := xorshift128_plus prng
    let keystream := r.1 % 2 ^ 32
    let rest := encrypt_words n r.2 (input.drop 4)
    (store32 (load32 input ^^^ keystream) ++ rest.1, rest.2)

/-- The remainder loop of `encrypt_line`: `remainder` iterations of
`out_rem[i] = in_rem[i] ^ (uint8_t)xorshift128_plus(&sender_prng)`. -/
def encrypt_rem : Nat → prng_state_t → List Nat → List Nat × prng_state_t
  | 0, prng, _ => ([], prng)
  | n + 1, prng, in_rem =>
    let r := xorshift128_plus prng
    let rest := encrypt_rem n r.2 (in_rem.drop 1)
    ((in_rem.getD 0 0 ^^^ r.1 % 2 ^ 8) % 2 ^ 8 :: rest.1, rest.2)

/-- Function `encrypt_line(input, output, length)`: the `length` bytes written to
`output` and the updated `sender_prng`. -/
def encrypt_line (sender_prng : prng_state_t) (input : List Nat) (length : Nat) :
    List Nat × prng_state_t :=
  let len_32 := length / 4
  let w := encrypt_words len_32 sender_prng input
  let remainder := length % 4
  if remainder > 0 then
    let b := encrypt_rem remainder w.2 (input.drop (len_32 * 4))
    (w.1 ++ b.1, b.2)
  else w

/-- The sender state touched by core 0: the generator and the volatile
`line_counter` and `new_frame`. -/
structure sender_t where
  sender_prng : prng_state_t
  line_counter : Nat
  new_frame : Bool
  deriving DecidableEq, Repr

/-- Function `sender_vsync_handler`: reset `line_counter`, resynchronise the generator,
raise `new_frame` (the marker it pushes is the output of the loop step). -/
def sender_vsync_handler (s : sender_t) : sender_t :=
  let s := { s with line_counter := 0 }
  let s := { s with sender_prng := sync_encryption_on_vsync s.sender_prng }
  { s with new_frame := true }

end Sender

/-- What travels through the inter-core FIFO: a line buffer, or the
`0xFFFFFFFF` V-Sync marker. On the sender's input side the same two cases are
the H-Sync event with the captured `video_buffer` and the V-Sync event. -/
inductive fifo_msg where
  | line (buffer : List Nat)
  | vsync
  deriving DecidableEq, Repr

namespace Sender

/-- One pass of the `while (true)` body of `core0_video_input`: on H-Sync the
captured line is encrypted over `width` bytes and pushed, and `line_counter`
is incremented; on V-Sync the handler runs and the marker is pushed. -/
def core0_step (width : Nat) (s : sender_t) : fifo_msg → sender_t × fifo_msg
  | .line video_buffer =>
    let r := encrypt_line s.sender_prng video_buffer width
    ({ s with sender_prng := r.2, line_counter := (s.line_counter + 1) % 2 ^ 32 },
      .line r.1)
  | .vsync => (sender_vsync_handler s, .vsync)

/-- The `while (true)` loop of `core0_video_input` over a finite sequence of
events: the final state and the messages pushed to core 1, in order. -/
def core0_loop (width : Nat) : sender_t → List fifo_msg → sender_t × List fifo_msg
  | s, [] => (s, [])
  | s, e :: es =>
    let r := core0_step width s e
    let rest := core0_loop width r.1 es
    (rest.1, r.2 :: rest.2)

/-- Function `core0_video_input`: `init_encryption`, then the loop. -/
def core0_video_input (width key : Nat) (s : sender_t) (events : List fifo_msg) :
    sender_t × List fifo_msg :=
  core0_loop width { s with sender_prng := init_encryption key s.sender_prng } events

end Sender

namespace Receiver

/-- Function `xorshift128_plus` of `picocrypt_receiver.c`. -/
def xorshift128_plus (prng : prng_state_t) : Nat × prng_state_t :=
  let x := prng.state0
  let y := prng.state1
  let x := x ^^^ ((x <<< 23) % 2 ^ 64)
  let x := x ^^^ (x >>> 17)
  let x := x ^^^ (y ^^^ (y >>> 26))
  ((x + y) % 2 ^ 64, { prng with state0 := y, state1 := x })

/-- The warm-up loop `for (int i = 0; i < n; i++) (void)xorshift128_plus(prng);`. -/
def warm_up : Nat → prng_state_t → prng_state_t
  | 0, prng => prng
  | n + 1, prng => warm_up n (xorshift128_plus prng).2

/-- Function `init_decryption`: overwrite all four fields of `receiver_prng` from the
key, then run the 10 warm-up steps. -/
def init_decryption (key : Nat) (receiver_prng : prng_state_t) : prng_state_t :=
  let p := { receiver_prng with state0 := key ^^^ 0xBF58476D1CE4E5B9 }
  let p := { p with state1 := key ^^^ 0x94D049BB133111EB }
  let p := { p with initial_seed := key }
  let p := { p with sync_counter := 0 }
  warm_up 10 p

/-- Function `sync_decryption_on_vsync`: reset the two state words from `initial_seed`,
increment the 32-bit `sync_counter`, then run the 10 warm-up steps. -/
def sync_decryption_on_vsync (prng : prng_state_t) : prng_state_t :=
  let p := { prng with state0 := prng.initial_seed ^^^ 0xBF58476D1CE4E5B9 }
  let p := { p with state1 := p.initial_seed ^^^ 0x94D049BB133111EB }
  let p := { p with sync_counter := (p.sync_counter + 1) % 2 ^ 32 }
  warm_up 10 p

/-- The word loop of `decrypt_line`. -/
def decrypt_words : Nat → prng_state_t → List Nat → List Nat × prng_state_t
  | 0, prng, _ => ([], prng)
  | n + 1, prng, input =>
    let r := xorshift128_plus prng
    let keystream := r.1 % 2 ^ 32
    let rest := decrypt_words n r.2 (input.drop 4)
    (store32 (load32 input ^^^ keystream) ++ rest.1, rest.2)

/-- The remainder loop of `decrypt_line`. -/
def decrypt_rem : Nat → prng_state_t → List Nat → List Nat × prng_state_t
  | 0, prng, _ => ([], prng)
  | n + 1, prng, in_rem =>
    let r := xorshift128_plus prng
    let rest := decrypt_rem n r.2 (in_rem.drop 1)
    ((in_rem.getD 0 0 ^^^ r.1 % 2 ^ 8) % 2 ^ 8 :: rest.1, rest.2)

/-- Function `decrypt_line(input, output, length)`: the `length` bytes written to
`output` and the updated `receiver_prng`. -/
def decrypt_line (receiver_prng : prng_state_t) (input : List Nat) (length : Nat) :
    List Nat × prng_state_t :=
  let len_32 := length / 4
  let w := decrypt_words len_32 receiver_prng input
  let remainder := length % 4
  if remainder > 0 then
    let b := decrypt_rem remainder w.2 (input.drop (len_32 * 4))
    (w.1 ++ b.1, b.2)
  else w

/-- The receiver state touched by core 1: the generator and the volatile
`line_counter`, `sync_error_count` and `new_frame`. -/
structure receiver_t where
  receiver_prng : prng_state_t
  line_counter : Nat
  sync_error_count : Nat
  new_frame : Bool
  deriving DecidableEq, Repr

/-- Function `handle_sync_error`: reinitialise the generator with `init_decryption`
(the two `printf` calls are left out). -/
def handle_sync_error (key : Nat) (r : receiver_t) : receiver_t :=
  { r with receiver_prng := init_decryption key r.receiver_prng }

/-- Function `receiver_vsync_handler`, statement by statement: `line_counter = 0`, the
resync, `new_frame = true`, and then the test `line_counter != 0` guarding
`sync_error_count++; handle_sync_error();`. -/
def receiver_vsync_handler (key : Nat) (r : receiver_t) : receiver_t :=
  let r := { r with line_counter := 0 }
  let r := { r with receiver_prng := sync_decryption_on_vsync r.receiver_prng }
  let r := { r with new_frame := true }
  if r.line_counter ≠ 0 then
    handle_sync_error key { r with sync_error_count := (r.sync_error_count + 1) % 2 ^ 32 }
  else r

/-- One pass of the `while (true)` body of `core1_decrypt_output`: the marker
runs the V-Sync handler; a line is decrypted over `width` bytes into
`decrypted_buffer`, which goes to the DAC, and `line_counter` is incremented. -/
def core1_step (width key : Nat) (r : receiver_t) : fifo_msg → receiver_t × fifo_msg
  | .vsync => (receiver_vsync_handler key r, .vsync)
  | .line encrypted_data =>
    let d := decrypt_line r.receiver_prng encrypted_data width
    ({ r with receiver_prng := d.2, line_counter := (r.line_counter + 1) % 2 ^ 32 },
      .line d.1)

/-- The `while (true)` loop of `core1_decrypt_output` over a finite sequence of
FIFO messages: the final state and what reaches the output, in order. -/
def core1_loop (width key : Nat) : receiver_t → List fifo_msg → receiver_t × List fifo_msg
  | r, [] => (r, [])
  | r, m :: ms =>
    let o := core1_step width key r m
    let rest := core1_loop width key o.1 ms
    (rest.1, o.2 :: rest.2)

/-- Function `core1_decrypt_output`: `init_decryption`, then the loop. -/
def core1_decrypt_output (width key : Nat) (r : receiver_t) (msgs : List fifo_msg) :
    receiver_t × List fifo_msg :=
  core1_loop width key { r with receiver_prng := init_decryption key r.receiver_prng } msgs

end Receiver

/-- The number of V-Sync markers in a message sequence. -/
def count_vsync : List fifo_msg → Nat
  | [] => 0
  | .vsync :: ms => count_vsync ms + 1
  | .line _ :: ms => count_vsync ms

/-- Every line of the sequence is a buffer of `width` bytes. -/
def well_formed (width : Nat) : List fifo_msg → Prop
  | [] => True
  | .vsync :: ms => well_formed width ms
  | .line b :: ms => (b.length = width ∧ ∀ x ∈ b, x < 256) ∧ well_formed width ms

/-- The line of the end-to-end scenario: `VIDEO_WIDTH` bytes holding
`0, 1, 2, ...` modulo 256. -/
def test_line : List Nat := (List.range VIDEO_WIDTH).map (fun i => i % 256)

/-- The frame of the end-to-end scenario: five test lines, with a V-Sync
marker interposed after the second. -/
def test_frame : List fifo_msg :=
  [.line test_line, .line test_line, .vsync, .line test_line, .line test_line, .line test_line]

/-- The generator after `n` frame-sync events on the transmitter. -/
def sender_after_syncs (key : Nat) (g : prng_state_t) : Nat → prng_state_t
  | 0 => Sender.init_encryption key g
  | n + 1 => Sender.sync_encryption_on_vsync (sender_after_syncs key g n)

/-- The generator after `n` frame-sync events on the receiver. -/
def receiver_after_syncs (key : Nat) (g : prng_state_t) : Nat → prng_state_t
  | 0 => Receiver.init_decryption key g
  | n + 1 => Receiver.sync_decryption_on_vsync (receiver_after_syncs key g n)

/-- The first `n` values returned by the sender's generator. -/
def sender_outputs : Nat → prng_state_t → List Nat
  | 0, _ => []
  | n + 1, prng =>
    (Sender.xorshift128_plus prng).1 :: sender_outputs n (Sender.xorshift128_plus prng).2

/-- The first `n` values returned by the receiver's generator. -/
def receiver_outputs : Nat → prng_state_t → List Nat
  | 0, _ => []
  | n + 1, prng =>
    (Receiver.xorshift128_plus prng).1 :: receiver_outputs n (Receiver.xorshift128_plus prng).2

/-- The byte loop of the self-test,
`out[i] = data[i] ^ (uint8_t)xorshift128_plus(&prng)`, with the generator's
successive return values given as the list `ks`. -/
def xor_low_bytes : List Nat → List Nat → List Nat
  | d :: ds, k :: ks => (d ^^^ k % 2 ^ 8) % 2 ^ 8 :: xor_low_bytes ds ks
  | _, _ => []

/-- The reseed of a 64-bit seed, in the words of the specification: the state
words `(seed XOR 0xBF58476D1CE4E5B9, seed XOR 0x94D049BB133111EB)` advanced by
10 warm-up steps. -/
def reseed_state (seed : Nat) : Nat × Nat :=
  ((Sender.warm_up 10
      ⟨seed ^^^ 0xBF58476D1CE4E5B9, seed ^^^ 0x94D049BB133111EB, seed, 0⟩).state0,
    (Sender.warm_up 10
      ⟨seed ^^^ 0xBF58476D1CE4E5B9, seed ^^^ 0x94D049BB133111EB, seed, 0⟩).state1)

/-- The keystream step in the words of the specification: from `(s0, s1)`,
with `x1 = s0 XOR ((s0 << 23) mod 2^64)`, `x2 = x1 XOR (x1 >> 17)` and
`x3 = x2 XOR s1 XOR (s1 >> 26)`, the returned value `(x3 + s1) mod 2^64`, the
new `s0` (the old `s1`) and the new `s1` (`x3`). -/
def step_spec (s0 s1 : Nat) : Nat × Nat × Nat :=
  let x1 := s0 ^^^ ((s0 <<< 23) % 2 ^ 64)
  let x2 := x1 ^^^ (x1 >>> 17)
  let x3 := (x2 ^^^ s1) ^^^ (s1 >>> 26)
  ((x3 + s1) % 2 ^ 64, s1, x3)

/-- The state words after `n` applications of the keystream step of the
specification, starting from the pair `s`. -/
def steps_spec : Nat → Nat × Nat → Nat × Nat
  | 0, s => s
  | n + 1, s => steps_spec n ((step_spec s.1 s.2).2.1, (step_spec s.1 s.2).2.2)

/-- The successive values `k_0, k_1, ...` the sender's generator returns from
the state `prng`: `k_i` is the value of call number `i + 1`. -/
def sender_keystream (prng : prng_state_t) (i : Nat) : Nat :=
  (Sender.xorshift128_plus (Sender.warm_up i prng)).1

/-- The successive values `k_0, k_1, ...` the receiver's generator returns from
the state `prng`. -/
def receiver_keystream (prng : prng_state_t) (i : Nat) : Nat :=
  (Receiver.xorshift128_plus (Receiver.warm_up i prng)).1

/-- Byte `j` of a 32-bit value as it lies in memory (little-endian). -/
def byte_of (w j : Nat) : Nat := w / 2 ^ (8 * j) % 2 ^ 8

/-- The layout of a transformed line in the words of the specification, for
the keystream `k`: `output` is as long as `input`; byte `j` of group
`i < L / 4` is the input byte XOR byte `j` of the low 32 bits of `k i`; trailing
byte `j < L % 4` is the input byte XOR the low 8 bits of `k (L / 4 + j)`. -/
def line_layout (k : Nat → Nat) (input output : List Nat) : Prop :=
  output.length = input.length ∧
  (∀ i, i < input.length / 4 → ∀ j, j < 4 →
    output.getD (4 * i + j) 0 = input.getD (4 * i + j) 0 ^^^ byte_of (k i % 2 ^ 32) j) ∧
  (∀ j, j < input.length % 4 →
    output.getD (4 * (input.length / 4) + j) 0 =
      input.getD (4 * (input.length / 4) + j) 0 ^^^ k (input.length / 4 + j) % 2 ^ 8)

instance (k : Nat → Nat) (input output : List Nat) : Decidable (line_layout k input output) := by
  unfold line_layout
  infer_instance

/-- One action on a generator between two observations: a bare keystream step,
a line of `length` bytes, or a frame-sync resync. -/
inductive prng_op where
  | step
  | line (input : List Nat) (length : Nat)
  | resync
  deriving DecidableEq, Repr

/-- The sender's generator after one action. -/
def sender_apply (prng : prng_state_t) : prng_op → prng_state_t
  | .step => (Sender.xorshift128_plus prng).2
  | .line input length => (Sender.encrypt_line prng input length).2
  | .resync => Sender.sync_encryption_on_vsync prng

/-- The receiver's generator after one action. -/
def receiver_apply (prng : prng_state_t) : prng_op → prng_state_t
  | .step => (Receiver.xorshift128_plus prng).2
  | .line input length => (Receiver.decrypt_line prng input length).2
  | .resync => Receiver.sync_decryption_on_vsync prng

/-- The sender's generator after `init_encryption` and a finite sequence of
actions. -/
def sender_reach (key : Nat) (g : prng_state_t) (ops : List prng_op) : prng_state_t :=
  ops.foldl sender_apply (Sender.init_encryption key g)

/-- The receiver's generator after `init_decryption` and a finite sequence of
actions. -/
def receiver_reach (key : Nat) (g : prng_state_t) (ops : List prng_op) : prng_state_t :=
  ops.foldl receiver_apply (Receiver.init_decryption key g)

/-! ## The two roles run the same generator -/

theorem receiver_step_eq (p : prng_state_t) :
    Receiver.xorshift128_plus p = Sender.xorshift128_plus p := rfl

theorem receiver_warm_up_eq (n : Nat) (p : prng_state_t) :
    Receiver.warm_up n p = Sender.warm_up n p := by
  induction n generalizing p with
  | zero => rfl
  | succ n ih => simp [Receiver.warm_up, Sender.warm_up, ih, receiver_step_eq]

theorem init_decryption_eq (key : Nat) (g : prng_state_t) :
    Receiver.init_decryption key g = Sender.init_encryption key g := by
  simp [Receiver.init_decryption, Sender.init_encryption, receiver_warm_up_eq]

theorem decrypt_words_eq (n : Nat) (p : prng_state_t) (buf : List Nat) :
    Receiver.decrypt_words n p buf = Sender.encrypt_words n p buf := by
  induction n generalizing p buf with
  | zero => rfl
  | succ n ih => simp [Receiver.decrypt_words, Sender.encrypt_words, ih, receiver_step_eq]

theorem decrypt_rem_eq (n : Nat) (p : prng_state_t) (buf : List Nat) :
    Receiver.decrypt_rem n p buf = Sender.encrypt_rem n p buf := by
  induction n generalizing p buf with
  | zero => rfl
  | succ n ih => simp [Receiver.decrypt_rem, Sender.encrypt_rem, ih, receiver_step_eq]

theorem decrypt_line_eq (p : prng_state_t) (buf : List Nat) (len : Nat) :
    Receiver.decrypt_line p buf len = Sender.encrypt_line p buf len := by
  simp [Receiver.decrypt_line, Sender.encrypt_line, decrypt_words_eq, decrypt_rem_eq]

/-! ## Generator state after the loops of the line transform -/

theorem encrypt_words_state (n : Nat) (p : prng_state_t) (buf : List Nat) :
    (Sender.encrypt_words n p buf).2 = Sender.warm_up n p := by
  induction n generalizing p buf with
  | zero => rfl
  | succ n ih => simp [Sender.encrypt_words, Sender.warm_up, ih]

theorem encrypt_rem_state (n : Nat) (p : prng_state_t) (buf : List Nat) :
    (Sender.encrypt_rem n p buf).2 = Sender.warm_up n p := by
  induction n generalizing p buf with
  | zero => rfl
  | succ n ih => simp [Sender.encrypt_rem, Sender.warm_up, ih]

theorem warm_up_add (m n : Nat) (p : prng_state_t) :
    Sender.warm_up (m + n) p = Sender.warm_up n (Sender.warm_up m p) := by
  induction m generalizing p with
  | zero => simp [Sender.warm_up]
  | succ m ih => rw [Nat.succ_add]; simp [Sender.warm_up, ih]

theorem encrypt_line_state (p : prng_state_t) (buf : List Nat) (len : Nat) :
    (Sender.encrypt_line p buf len).2 = Sender.warm_up (len / 4 + len % 4) p := by
  unfold Sender.encrypt_line
  by_cases h : len % 4 > 0
  · simp [h, encrypt_rem_state, encrypt_words_state, warm_up_add]
  · have h0 : len % 4 = 0 := by omega
    simp [h0, encrypt_words_state]

theorem encrypt_words_length (n : Nat) (p : prng_state_t) (buf : List Nat) :
    (Sender.encrypt_words n p buf).1.length = 4 * n := by
  induction n generalizing p buf with
  | zero => rfl
  | succ n ih => simp [Sender.encrypt_words, store32, ih]; omega

theorem encrypt_rem_length (n : Nat) (p : prng_state_t) (buf : List Nat) :
    (Sender.encrypt_rem n p buf).1.length = n := by
  induction n generalizing p buf with
  | zero => rfl
  | succ n ih => simp [Sender.encrypt_rem, ih]


/-! ## Word access and XOR cancellation -/

theorem load32_cons4 (a b c d : Nat) (l : List Nat) :
    load32 (a :: b :: c :: d :: l) = a + 2 ^ 8 * b + 2 ^ 16 * c + 2 ^ 24 * d := by
  simp [load32]

theorem load32_lt (a b c d : Nat) (l : List Nat)
    (ha : a < 256) (hb : b < 256) (hc : c < 256) (hd : d < 256) :
    load32 (a :: b :: c :: d :: l) < 2 ^ 32 := by
  rw [load32_cons4]; norm_num; omega

theorem store32_load32 (a b c d : Nat) (l : List Nat)
    (ha : a < 256) (hb : b < 256) (hc : c < 256) (hd : d < 256) :
    store32 (load32 (a :: b :: c :: d :: l)) = [a, b, c, d] := by
  rw [load32_cons4]; simp only [store32]; norm_num
  refine ⟨?_, ?_, ?_, ?_⟩ <;> omega

theorem load32_store32 (w : Nat) (l : List Nat) (hw : w < 2 ^ 32) :
    load32 (store32 w ++ l) = w := by
  simp only [store32, List.cons_append, List.nil_append, load32_cons4]
  norm_num at hw ⊢; omega

theorem xor_xor_cancel (a k : Nat) : (a ^^^ k) ^^^ k = a := by
  rw [Nat.xor_assoc, Nat.xor_self, Nat.xor_zero]

theorem xor_byte_cancel (b k : Nat) (hb : b < 256) :
    ((b ^^^ k % 2 ^ 8) % 2 ^ 8 ^^^ k % 2 ^ 8) % 2 ^ 8 = b := by
  have hk : k % 2 ^ 8 < 2 ^ 8 := Nat.mod_lt _ (by norm_num)
  have hx : b ^^^ k % 2 ^ 8 < 2 ^ 8 := Nat.xor_lt_two_pow (by simpa using hb) hk
  rw [Nat.mod_eq_of_lt hx, xor_xor_cancel, Nat.mod_eq_of_lt (by simpa using hb)]

/-! ## The line transform undoes itself -/

theorem encrypt_words_twice (n : Nat) (p : prng_state_t) (buf tail : List Nat)
    (hlen : 4 * n ≤ buf.length) (hb : ∀ x ∈ buf, x < 256) :
    (Sender.encrypt_words n p ((Sender.encrypt_words n p buf).1 ++ tail)).1 = buf.take (4 * n) := by
  induction n generalizing p buf with
  | zero => simp [Sender.encrypt_words]
  | succ n ih =>
    match buf, hlen, hb with
    | a :: b :: c :: d :: rest, hlen, hb =>
      have ha : a < 256 := hb a (by simp)
      have hb2 : b < 256 := hb b (by simp)
      have hc : c < 256 := hb c (by simp)
      have hd : d < 256 := hb d (by simp)
      have hrest : ∀ x ∈ rest, x < 256 := fun x hx => hb x (by simp [hx])
      have hl : 4 * n ≤ rest.length := by simp at hlen; omega
      have hk : (Sender.xorshift128_plus p).1 % 2 ^ 32 < 2 ^ 32 := Nat.mod_lt _ (by norm_num)
      have hw : load32 (a :: b :: c :: d :: rest) ^^^ (Sender.xorshift128_plus p).1 % 2 ^ 32
          < 2 ^ 32 := Nat.xor_lt_two_pow (load32_lt a b c d rest ha hb2 hc hd) hk
      have h4 : 4 * (n + 1) = 4 * n + 4 := by ring
      simp only [Sender.encrypt_words, List.append_assoc]
      rw [load32_store32 _ _ hw, xor_xor_cancel, store32_load32 a b c d rest ha hb2 hc hd]
      have hdrop : List.drop 4 (store32 (load32 (a :: b :: c :: d :: rest) ^^^
          (Sender.xorshift128_plus p).1 % 2 ^ 32) ++
          ((Sender.encrypt_words n (Sender.xorshift128_plus p).2
            (List.drop 4 (a :: b :: c :: d :: rest))).1 ++ tail)) =
          (Sender.encrypt_words n (Sender.xorshift128_plus p).2 rest).1 ++ tail := by
        simp [store32]
      rw [hdrop, ih _ rest hl hrest, h4]
      simp
    | [], hlen, _ => simp at hlen
    | [_], hlen, _ => simp at hlen; omega
    | [_, _], hlen, _ => simp at hlen; omega
    | [_, _, _], hlen, _ => simp at hlen; omega

theorem encrypt_rem_twice (n : Nat) (p : prng_state_t) (buf tail : List Nat)
    (hlen : n ≤ buf.length) (hb : ∀ x ∈ buf, x < 256) :
    (Sender.encrypt_rem n p ((Sender.encrypt_rem n p buf).1 ++ tail)).1 = buf.take n := by
  induction n generalizing p buf with
  | zero => simp [Sender.encrypt_rem]
  | succ n ih =>
    match buf, hlen, hb with
    | a :: rest, hlen, hb =>
      have ha : a < 256 := hb a (by simp)
      have hrest : ∀ x ∈ rest, x < 256 := fun x hx => hb x (by simp [hx])
      have hl : n ≤ rest.length := by simp at hlen; omega
      simp only [Sender.encrypt_rem, List.cons_append, List.getD_cons_zero, List.drop_succ_cons,
        List.drop_zero, List.take_succ_cons]
      rw [xor_byte_cancel a _ ha, ih _ rest hl hrest]
    | [], hlen, _ => simp at hlen

theorem encrypt_line_length (p : prng_state_t) (buf : List Nat) (len : Nat) :
    (Sender.encrypt_line p buf len).1.length = len := by
  unfold Sender.encrypt_line
  by_cases h : len % 4 > 0
  · simp [h, encrypt_words_length, encrypt_rem_length]; omega
  · have h0 : len % 4 = 0 := by omega
    simp [h0, encrypt_words_length]; omega

theorem encrypt_line_twice (p : prng_state_t) (buf : List Nat)
    (hb : ∀ x ∈ buf, x < 256) :
    (Sender.encrypt_line p (Sender.encrypt_line p buf buf.length).1 buf.length).1 = buf := by
  unfold Sender.encrypt_line
  have hq : 4 * (buf.length / 4) ≤ buf.length := by omega
  by_cases h : buf.length % 4 > 0
  · simp only [h, if_true]
    rw [encrypt_words_twice _ _ _ _ hq hb]
    simp only [encrypt_words_state]
    have hd : List.drop (buf.length / 4 * 4)
        ((Sender.encrypt_words (buf.length / 4) p buf).1 ++
          (Sender.encrypt_rem (buf.length % 4) (Sender.warm_up (buf.length / 4) p)
            (List.drop (buf.length / 4 * 4) buf)).1) =
        (Sender.encrypt_rem (buf.length % 4) (Sender.warm_up (buf.length / 4) p)
            (List.drop (buf.length / 4 * 4) buf)).1 := by
      rw [List.drop_append_of_le_length (by rw [encrypt_words_length]; omega)]
      rw [List.drop_of_length_le (by rw [encrypt_words_length]; omega)]
      simp
    rw [hd]
    have hr := encrypt_rem_twice (buf.length % 4) (Sender.warm_up (buf.length / 4) p)
      (List.drop (buf.length / 4 * 4) buf) [] (by simp; omega)
      (fun x hx => hb x (List.mem_of_mem_drop hx))
    rw [List.append_nil] at hr
    have ht : List.take (buf.length % 4) (List.drop (buf.length / 4 * 4) buf) =
        List.drop (buf.length / 4 * 4) buf :=
      List.take_of_length_le (by rw [List.length_drop]; omega)
    rw [hr, ht, Nat.mul_comm 4]
    exact List.take_append_drop _ _
  · have h0 : buf.length % 4 = 0 := by omega
    simp only [h0, gt_iff_lt, Nat.lt_irrefl, if_false]
    have := encrypt_words_twice (buf.length / 4) p buf [] hq hb
    rw [List.append_nil] at this
    rw [this, List.take_of_length_le (by omega)]

/-! ## What warm-up, init and resync do to the bookkeeping fields -/

theorem warm_up_initial_seed (n : Nat) (p : prng_state_t) :
    (Sender.warm_up n p).initial_seed = p.initial_seed := by
  induction n generalizing p with
  | zero => rfl
  | succ n ih => simp [Sender.warm_up, ih, Sender.xorshift128_plus]

theorem warm_up_sync_counter (n : Nat) (p : prng_state_t) :
    (Sender.warm_up n p).sync_counter = p.sync_counter := by
  induction n generalizing p with
  | zero => rfl
  | succ n ih => simp [Sender.warm_up, ih, Sender.xorshift128_plus]

theorem warm_up_congr (n : Nat) (p q : prng_state_t)
    (h0 : p.state0 = q.state0) (h1 : p.state1 = q.state1) :
    (Sender.warm_up n p).state0 = (Sender.warm_up n q).state0 ∧
    (Sender.warm_up n p).state1 = (Sender.warm_up n q).state1 := by
  induction n generalizing p q with
  | zero => exact ⟨h0, h1⟩
  | succ n ih =>
    simp only [Sender.warm_up]
    apply ih
    · simp [Sender.xorshift128_plus, h1]
    · simp [Sender.xorshift128_plus, h0, h1]

theorem init_encryption_old_state (key : Nat) (g h : prng_state_t) :
    Sender.init_encryption key g = Sender.init_encryption key h := rfl

theorem init_encryption_sync_counter (key : Nat) (g : prng_state_t) :
    (Sender.init_encryption key g).sync_counter = 0 := by
  simp [Sender.init_encryption, warm_up_sync_counter]

theorem init_encryption_initial_seed (key : Nat) (g : prng_state_t) :
    (Sender.init_encryption key g).initial_seed = key := by
  simp [Sender.init_encryption, warm_up_initial_seed]

theorem sync_encryption_sync_counter (p : prng_state_t) :
    (Sender.sync_encryption_on_vsync p).sync_counter = (p.sync_counter + 1) % 2 ^ 32 := by
  unfold Sender.sync_encryption_on_vsync
  simp only [warm_up_sync_counter]
  split <;> rfl

theorem sync_encryption_initial_seed (p : prng_state_t) :
    (Sender.sync_encryption_on_vsync p).initial_seed =
      if (p.sync_counter + 1) % 2 ^ 32 % 60 = 0 then p.initial_seed ^^^ 0xAAAAAAAA55555555
      else p.initial_seed := by
  unfold Sender.sync_encryption_on_vsync
  simp only [warm_up_initial_seed]
  split <;> rfl

theorem sync_decryption_sync_counter (p : prng_state_t) :
    (Receiver.sync_decryption_on_vsync p).sync_counter = (p.sync_counter + 1) % 2 ^ 32 := by
  simp [Receiver.sync_decryption_on_vsync, receiver_warm_up_eq, warm_up_sync_counter]

theorem sync_decryption_initial_seed (p : prng_state_t) :
    (Receiver.sync_decryption_on_vsync p).initial_seed = p.initial_seed := by
  simp [Receiver.sync_decryption_on_vsync, receiver_warm_up_eq, warm_up_initial_seed]

theorem sync_encryption_eq_decryption (p : prng_state_t)
    (h : (p.sync_counter + 1) % 2 ^ 32 % 60 ≠ 0) :
    Sender.sync_encryption_on_vsync p = Receiver.sync_decryption_on_vsync p := by
  simp only [Sender.sync_encryption_on_vsync, Receiver.sync_decryption_on_vsync,
    receiver_warm_up_eq, if_neg h]

theorem encrypt_line_sync_counter (p : prng_state_t) (buf : List Nat) (len : Nat) :
    (Sender.encrypt_line p buf len).2.sync_counter = p.sync_counter := by
  rw [encrypt_line_state, warm_up_sync_counter]

/-! ## The two pipelines in lock step -/

theorem receiver_vsync_handler_prng (key : Nat) (r : Receiver.receiver_t) :
    (Receiver.receiver_vsync_handler key r).receiver_prng =
      Receiver.sync_decryption_on_vsync r.receiver_prng := by
  simp [Receiver.receiver_vsync_handler]

theorem loops_round_trip (width key : Nat) (events : List fifo_msg) :
    ∀ (s : Sender.sender_t) (r : Receiver.receiver_t),
      s.sender_prng = r.receiver_prng →
      s.sender_prng.sync_counter + count_vsync events < 60 →
      well_formed width events →
      (Receiver.core1_loop width key r (Sender.core0_loop width s events).2).2 = events := by
  induction events with
  | nil => intro s r _ _ _; rfl
  | cons e es ih =>
    intro s r hsr hc hwf
    cases e with
    | vsync =>
      simp only [count_vsync] at hc
      simp only [well_formed] at hwf
      simp only [Sender.core0_loop, Sender.core0_step, Receiver.core1_loop, Receiver.core1_step]
      congr 1
      apply ih
      · rw [receiver_vsync_handler_prng, ← hsr]
        simp only [Sender.sender_vsync_handler]
        apply sync_encryption_eq_decryption
        rw [Nat.mod_eq_of_lt (by norm_num; omega)]
        omega
      · simp only [Sender.sender_vsync_handler, sync_encryption_sync_counter]
        rw [Nat.mod_eq_of_lt (by norm_num; omega)]
        omega
      · exact hwf
    | line b =>
      simp only [count_vsync] at hc
      simp only [well_formed] at hwf
      obtain ⟨⟨hlen, hb⟩, hwf⟩ := hwf
      simp only [Sender.core0_loop, Sender.core0_step, Receiver.core1_loop, Receiver.core1_step]
      subst hlen
      rw [← hsr, decrypt_line_eq, encrypt_line_twice _ _ hb]
      congr 1
      apply ih
      · simp only [encrypt_line_state]
      · simp only [encrypt_line_sync_counter]; exact hc
      · exact hwf

theorem test_line_bytes : test_line.length = VIDEO_WIDTH ∧ ∀ x ∈ test_line, x < 256 := by
  refine ⟨by simp [test_line], ?_⟩
  intro x hx
  simp only [test_line, List.mem_map] at hx
  obtain ⟨i, _, rfl⟩ := hx
  exact Nat.mod_lt _ (by norm_num)

theorem test_frame_well_formed : well_formed VIDEO_WIDTH test_frame := by
  simp only [test_frame, well_formed, and_true]
  exact ⟨test_line_bytes, test_line_bytes, test_line_bytes, test_line_bytes, test_line_bytes⟩

/-! ## Claims -/

/-- C1 (self-inverse): for every key and every byte buffer `b` of any length,
`encrypt_line` on `b` from a freshly initialised sender generator followed by
`decrypt_line` on the result from a receiver generator freshly initialised with
the same key gives back exactly `b`. -/
theorem decrypt_encrypt_self_inverse (key : Nat) (g h : prng_state_t) (b : List Nat)
    (hb : ∀ x ∈ b, x < 256) :
    (Receiver.decrypt_line (Receiver.init_decryption key h)
      (Sender.encrypt_line (Sender.init_encryption key g) b b.length).1 b.length).1 = b := by
  rw [init_decryption_eq, decrypt_line_eq, init_encryption_old_state key h g]
  exact encrypt_line_twice _ b hb

theorem decrypt_encrypt_self_inverse_witness :
    (∀ x ∈ [1, 2, 3, 4, 5, 6, 255], x < 256) ∧
    (Receiver.decrypt_line (Receiver.init_decryption PRESHARED_KEY ⟨0, 0, 0, 0⟩)
      (Sender.encrypt_line (Sender.init_encryption PRESHARED_KEY ⟨7, 7, 7, 7⟩)
        [1, 2, 3, 4, 5, 6, 255] [1, 2, 3, 4, 5, 6, 255].length).1
      [1, 2, 3, 4, 5, 6, 255].length).1 = [1, 2, 3, 4, 5, 6, 255] :=
  ⟨by decide, decrypt_encrypt_self_inverse PRESHARED_KEY ⟨7, 7, 7, 7⟩ ⟨0, 0, 0, 0⟩
    [1, 2, 3, 4, 5, 6, 255] (by decide)⟩

/-- C2 (end-to-end round trip): for every key, every line width and every
sequence of `width`-byte lines holding zero or one V-Sync marker at any
position, what core 1 of the receiver outputs (after `init_decryption`,
decrypting each FIFO line with `decrypt_line` and running its V-Sync handler at
the marker) for the messages core 0 of the sender pushed (after
`init_encryption`, encrypting each line with `encrypt_line` and running its
V-Sync handler at the marker) is the original sequence, line for line. -/
theorem stream_round_trip (width key : Nat) (s : Sender.sender_t) (r : Receiver.receiver_t)
    (events : List fifo_msg) (hwf : well_formed width events)
    (hv : count_vsync events ≤ 1) :
    (Receiver.core1_decrypt_output width key r
      (Sender.core0_video_input width key s events).2).2 = events := by
  unfold Receiver.core1_decrypt_output Sender.core0_video_input
  apply loops_round_trip
  · simp only [init_decryption_eq]; rfl
  · simp only [init_encryption_sync_counter]; omega
  · exact hwf

theorem stream_round_trip_witness :
    well_formed VIDEO_WIDTH test_frame ∧ count_vsync test_frame ≤ 1 ∧
    (Receiver.core1_decrypt_output VIDEO_WIDTH PRESHARED_KEY ⟨⟨0, 0, 0, 0⟩, 0, 0, false⟩
      (Sender.core0_video_input VIDEO_WIDTH PRESHARED_KEY ⟨⟨0, 0, 0, 0⟩, 0, false⟩
        test_frame).2).2 = test_frame :=
  ⟨test_frame_well_formed, by simp [test_frame, count_vsync],
    stream_round_trip VIDEO_WIDTH PRESHARED_KEY ⟨⟨0, 0, 0, 0⟩, 0, false⟩
      ⟨⟨0, 0, 0, 0⟩, 0, 0, false⟩ test_frame test_frame_well_formed
      (by simp [test_frame, count_vsync])⟩

/-! ### Frame-sync events on both sides -/

theorem sender_after_syncs_counter (key : Nat) (g : prng_state_t) (n : Nat) :
    (sender_after_syncs key g n).sync_counter = n % 2 ^ 32 := by
  induction n with
  | zero => simp [sender_after_syncs, init_encryption_sync_counter]
  | succ n ih =>
    simp only [sender_after_syncs, sync_encryption_sync_counter, ih]
    exact (Nat.add_mod _ _ _).symm ▸ by simp [Nat.add_mod]

theorem xor_evolution_ne (a : Nat) : a ^^^ 0xAAAAAAAA55555555 ≠ a := by
  intro h
  have h2 : a ^^^ (a ^^^ 0xAAAAAAAA55555555) = a ^^^ a := by rw [h]
  rw [← Nat.xor_assoc, Nat.xor_self, Nat.zero_xor] at h2
  exact absurd h2 (by decide)

theorem sender_sync_changes_seed_iff (key : Nat) (g : prng_state_t) (n : Nat) :
    (sender_after_syncs key g (n + 1)).initial_seed ≠ (sender_after_syncs key g n).initial_seed ↔
      (n + 1) % 2 ^ 32 % 60 = 0 := by
  have hc : ((sender_after_syncs key g n).sync_counter + 1) % 2 ^ 32 = (n + 1) % 2 ^ 32 := by
    rw [sender_after_syncs_counter]; simp [Nat.add_mod]
  simp only [sender_after_syncs, sync_encryption_initial_seed, hc]
  by_cases h : (n + 1) % 2 ^ 32 % 60 = 0
  · rw [if_pos h]
    exact ⟨fun _ => h, fun _ => xor_evolution_ne _⟩
  · rw [if_neg h]
    exact ⟨fun hne => absurd rfl hne, fun h0 => absurd h0 h⟩

/-- C3 (lock-step frame after frame), evaluated on the code: with the key of
the firmware, the transmitter and the receiver hold the same `(s0, s1)` after
60 frame-sync events each, and different ones after 61. -/
theorem lock_step_lost_at_61 :
    ((sender_after_syncs PRESHARED_KEY ⟨0, 0, 0, 0⟩ 60).state0,
      (sender_after_syncs PRESHARED_KEY ⟨0, 0, 0, 0⟩ 60).state1) =
    ((receiver_after_syncs PRESHARED_KEY ⟨0, 0, 0, 0⟩ 60).state0,
      (receiver_after_syncs PRESHARED_KEY ⟨0, 0, 0, 0⟩ 60).state1) ∧
    ((sender_after_syncs PRESHARED_KEY ⟨0, 0, 0, 0⟩ 61).state0,
      (sender_after_syncs PRESHARED_KEY ⟨0, 0, 0, 0⟩ 61).state1) ≠
    ((receiver_after_syncs PRESHARED_KEY ⟨0, 0, 0, 0⟩ 61).state0,
      (receiver_after_syncs PRESHARED_KEY ⟨0, 0, 0, 0⟩ 61).state1) := by
  set_option maxRecDepth 100000 in decide

/-! ### Generator steps consumed by one line -/

/-- C4 as stated fails: a 6-byte line from the freshly initialised generator
leaves a state other than the one reached by `ceil(6/4) = 2` steps. -/
theorem call_count_ceil_fails :
    (Sender.encrypt_line (Sender.init_encryption PRESHARED_KEY ⟨0, 0, 0, 0⟩)
        [1, 2, 3, 4, 5, 6] 6).2 ≠
      Sender.warm_up ((6 + 3) / 4) (Sender.init_encryption PRESHARED_KEY ⟨0, 0, 0, 0⟩) := by
  decide

/-- C4 (call count, amended): for every generator state and every length `L`,
`encrypt_line` and `decrypt_line` leave the generator in the state reached by
`L / 4 + L % 4` calls of `xorshift128_plus`: one per 4-byte group and one per
trailing byte. -/
theorem line_consumes_words_plus_bytes (prng : prng_state_t) (input : List Nat) (L : Nat) :
    (Sender.encrypt_line prng input L).2 = Sender.warm_up (L / 4 + L % 4) prng ∧
    (Receiver.decrypt_line prng input L).2 = Receiver.warm_up (L / 4 + L % 4) prng := by
  rw [decrypt_line_eq, receiver_warm_up_eq]
  exact ⟨encrypt_line_state prng input L, encrypt_line_state prng input L⟩

/-! ### The transmitter's resync -/

/-- C5 as stated fails: at the 60th resync the state words come from the seed
held before the call, not from the seed the call has just mutated. -/
theorem resync_not_from_mutated_seed :
    ((Sender.sync_encryption_on_vsync ⟨0, 0, PRESHARED_KEY, 59⟩).state0,
      (Sender.sync_encryption_on_vsync ⟨0, 0, PRESHARED_KEY, 59⟩).state1) ≠
    reseed_state (Sender.sync_encryption_on_vsync ⟨0, 0, PRESHARED_KEY, 59⟩).initial_seed := by
  decide

/-- C5 (transmitter resync, amended): `sync_encryption_on_vsync` increments the
32-bit `sync_counter`, XORs `initial_seed` with `0xAAAAAAAA55555555` exactly
when the incremented counter is a multiple of 60, and leaves `(s0, s1)` equal
to the reseed of the `initial_seed` held before the call. -/
theorem sync_encryption_reseeds_old_seed (prng : prng_state_t) :
    (Sender.sync_encryption_on_vsync prng).sync_counter = (prng.sync_counter + 1) % 2 ^ 32 ∧
    (Sender.sync_encryption_on_vsync prng).initial_seed =
      (if (Sender.sync_encryption_on_vsync prng).sync_counter % 60 = 0
        then prng.initial_seed ^^^ 0xAAAAAAAA55555555 else prng.initial_seed) ∧
    ((Sender.sync_encryption_on_vsync prng).state0,
      (Sender.sync_encryption_on_vsync prng).state1) = reseed_state prng.initial_seed := by
  refine ⟨sync_encryption_sync_counter prng, ?_, ?_⟩
  · rw [sync_encryption_sync_counter, sync_encryption_initial_seed]
  · unfold Sender.sync_encryption_on_vsync reseed_state
    have h := fun q => warm_up_congr 10 q
      ⟨prng.initial_seed ^^^ 0xBF58476D1CE4E5B9, prng.initial_seed ^^^ 0x94D049BB133111EB,
        prng.initial_seed, 0⟩
    dsimp only
    split
    · exact Prod.ext (h _ rfl rfl).1 (h _ rfl rfl).2
    · exact Prod.ext (h _ rfl rfl).1 (h _ rfl rfl).2

/-! ### Key evolution -/

/-- C6 as stated fails: the 2^32-th resync after `init_encryption` finds the
32-bit counter wrapped to 0 and changes `initial_seed`, although 2^32 is not a
multiple of 60. -/
theorem key_evolution_wraps :
    ¬ ((sender_after_syncs PRESHARED_KEY ⟨0, 0, 0, 0⟩ 4294967296).initial_seed ≠
        (sender_after_syncs PRESHARED_KEY ⟨0, 0, 0, 0⟩ 4294967295).initial_seed ↔
      60 ∣ 4294967296) := by
  have h := sender_sync_changes_seed_iff PRESHARED_KEY ⟨0, 0, 0, 0⟩ 4294967295
  have hch : (sender_after_syncs PRESHARED_KEY ⟨0, 0, 0, 0⟩ (4294967295 + 1)).initial_seed ≠
      (sender_after_syncs PRESHARED_KEY ⟨0, 0, 0, 0⟩ 4294967295).initial_seed :=
    h.mpr (by decide)
  intro hiff
  exact absurd (hiff.mp hch) (by decide)

/-- C6 (key evolution boundary, amended): starting from `init_encryption`, for
every `n ≥ 1` the `n`-th call of `sync_encryption_on_vsync` changes
`initial_seed` if and only if `n mod 2^32` (the value of the 32-bit
`sync_counter`) is a multiple of 60, and then the change is an XOR with
`0xAAAAAAAA55555555`; `sync_decryption_on_vsync` leaves `initial_seed`
unchanged for every state. -/
theorem key_evolution_boundary (key : Nat) (g r : prng_state_t) (n : Nat) (hn : 1 ≤ n) :
    ((sender_after_syncs key g n).initial_seed ≠ (sender_after_syncs key g (n - 1)).initial_seed ↔
      60 ∣ n % 2 ^ 32) ∧
    (sender_after_syncs key g n).initial_seed =
      (if 60 ∣ n % 2 ^ 32 then
        (sender_after_syncs key g (n - 1)).initial_seed ^^^ 0xAAAAAAAA55555555
      else (sender_after_syncs key g (n - 1)).initial_seed) ∧
    (Receiver.sync_decryption_on_vsync r).initial_seed = r.initial_seed := by
  obtain ⟨m, rfl⟩ : ∃ m, n = m + 1 := ⟨n - 1, by omega⟩
  have hd : 60 ∣ (m + 1) % 2 ^ 32 ↔ (m + 1) % 2 ^ 32 % 60 = 0 := Nat.dvd_iff_mod_eq_zero
  have hc : ((sender_after_syncs key g m).sync_counter + 1) % 2 ^ 32 = (m + 1) % 2 ^ 32 := by
    rw [sender_after_syncs_counter]; simp [Nat.add_mod]
  refine ⟨?_, ?_, sync_decryption_initial_seed r⟩
  · rw [Nat.add_sub_cancel, hd]
    exact sender_sync_changes_seed_iff key g m
  · rw [Nat.add_sub_cancel]
    simp only [sender_after_syncs, sync_encryption_initial_seed, hc, hd]

theorem key_evolution_boundary_witness :
    1 ≤ 60 ∧
    (((sender_after_syncs PRESHARED_KEY ⟨0, 0, 0, 0⟩ 60).initial_seed ≠
        (sender_after_syncs PRESHARED_KEY ⟨0, 0, 0, 0⟩ (60 - 1)).initial_seed ↔
      60 ∣ 60 % 2 ^ 32) ∧
    (sender_after_syncs PRESHARED_KEY ⟨0, 0, 0, 0⟩ 60).initial_seed =
      (if 60 ∣ 60 % 2 ^ 32 then
        (sender_after_syncs PRESHARED_KEY ⟨0, 0, 0, 0⟩ (60 - 1)).initial_seed ^^^
          0xAAAAAAAA55555555
      else (sender_after_syncs PRESHARED_KEY ⟨0, 0, 0, 0⟩ (60 - 1)).initial_seed) ∧
    (Receiver.sync_decryption_on_vsync ⟨1, 2, 3, 4⟩).initial_seed =
      (⟨1, 2, 3, 4⟩ : prng_state_t).initial_seed) :=
  ⟨by decide, key_evolution_boundary PRESHARED_KEY ⟨0, 0, 0, 0⟩ ⟨1, 2, 3, 4⟩ 60 (by decide)⟩

/-! ### Drift detection -/

/-- C7 (drift detection), evaluated on the code: `receiver_vsync_handler`
clears `line_counter` before it tests it, so for every receiver state it leaves
`sync_error_count` unchanged and the generator in the state of a plain resync;
for the state with `line_counter = 5` after `init_decryption` that is not the
freshly initialised state. -/
theorem vsync_handler_never_recovers :
    (∀ (key : Nat) (r : Receiver.receiver_t),
      (Receiver.receiver_vsync_handler key r).sync_error_count = r.sync_error_count ∧
      (Receiver.receiver_vsync_handler key r).receiver_prng =
        Receiver.sync_decryption_on_vsync r.receiver_prng) ∧
    (Receiver.receiver_vsync_handler PRESHARED_KEY
        ⟨Receiver.init_decryption PRESHARED_KEY ⟨0, 0, 0, 0⟩, 5, 0, false⟩).sync_error_count = 0 ∧
    (Receiver.receiver_vsync_handler PRESHARED_KEY
        ⟨Receiver.init_decryption PRESHARED_KEY ⟨0, 0, 0, 0⟩, 5, 0, false⟩).receiver_prng ≠
      Receiver.init_decryption PRESHARED_KEY ⟨0, 0, 0, 0⟩ := by
  refine ⟨fun key r => ⟨by simp [Receiver.receiver_vsync_handler], by
    simp [Receiver.receiver_vsync_handler]⟩, by decide, by decide⟩

/-! ### Determinism -/

theorem receiver_outputs_eq (n : Nat) (p : prng_state_t) :
    receiver_outputs n p = sender_outputs n p := by
  induction n generalizing p with
  | zero => rfl
  | succ n ih => simp [receiver_outputs, sender_outputs, ih, receiver_step_eq]

theorem sender_outputs_length (n : Nat) (p : prng_state_t) :
    (sender_outputs n p).length = n := by
  induction n generalizing p with
  | zero => rfl
  | succ n ih => simp [sender_outputs, ih]

theorem xor_low_bytes_twice (d ks : List Nat) (hlen : d.length ≤ ks.length)
    (hd : ∀ x ∈ d, x < 256) : xor_low_bytes (xor_low_bytes d ks) ks = d := by
  induction d generalizing ks with
  | nil => cases ks <;> rfl
  | cons a d ih =>
    cases ks with
    | nil => simp at hlen
    | cons k ks =>
      simp only [xor_low_bytes]
      rw [xor_byte_cancel a k (hd a (by simp)),
        ih ks (by simpa using hlen) (fun x hx => hd x (by simp [hx]))]

/-- C8 (generator determinism across the two roles): for every key, every `N`
and every byte sequence `d` of length `N`, the sender's generator after
`init_encryption` and the receiver's after `init_decryption` return the same
`N` values, and XORing each byte of `d` with the low 8 bits of the matching
value of one generator and then of the other gives back `d`. -/
theorem generators_agree (key : Nat) (g h : prng_state_t) (N : Nat) (d : List Nat)
    (hlen : d.length = N) (hd : ∀ x ∈ d, x < 256) :
    sender_outputs N (Sender.init_encryption key g) =
      receiver_outputs N (Receiver.init_decryption key h) ∧
    xor_low_bytes (xor_low_bytes d (sender_outputs N (Sender.init_encryption key g)))
      (receiver_outputs N (Receiver.init_decryption key h)) = d := by
  rw [receiver_outputs_eq, init_decryption_eq, init_encryption_old_state key h g]
  exact ⟨rfl, xor_low_bytes_twice d _ (by rw [sender_outputs_length, hlen]) hd⟩

theorem generators_agree_witness :
    (List.range 256).length = 256 ∧ (∀ x ∈ List.range 256, x < 256) ∧
    sender_outputs 256 (Sender.init_encryption PRESHARED_KEY ⟨0, 0, 0, 0⟩) =
      receiver_outputs 256 (Receiver.init_decryption PRESHARED_KEY ⟨9, 9, 9, 9⟩) ∧
    xor_low_bytes
      (xor_low_bytes (List.range 256)
        (sender_outputs 256 (Sender.init_encryption PRESHARED_KEY ⟨0, 0, 0, 0⟩)))
      (receiver_outputs 256 (Receiver.init_decryption PRESHARED_KEY ⟨9, 9, 9, 9⟩)) =
      List.range 256 :=
  ⟨List.length_range 256, fun _ hx => List.mem_range.mp hx,
    generators_agree PRESHARED_KEY ⟨0, 0, 0, 0⟩ ⟨9, 9, 9, 9⟩ 256 (List.range 256)
      (List.length_range 256) (fun _ hx => List.mem_range.mp hx)⟩

/-- C9 (resync determinism): for either role, two generator states that agree
on `initial_seed` and `sync_counter`, whatever their `state[0]` and `state[1]`,
are mapped by the resync of that role to the same state. -/
theorem resync_determinism (p q : prng_state_t)
    (hs : p.initial_seed = q.initial_seed) (hc : p.sync_counter = q.sync_counter) :
    Sender.sync_encryption_on_vsync p = Sender.sync_encryption_on_vsync q ∧
    Receiver.sync_decryption_on_vsync p = Receiver.sync_decryption_on_vsync q := by
  unfold Sender.sync_encryption_on_vsync Receiver.sync_decryption_on_vsync
  simp only [hs, hc, and_self]

theorem resync_determinism_witness :
    (⟨1, 2, PRESHARED_KEY, 59⟩ : prng_state_t).initial_seed =
      (⟨3, 4, PRESHARED_KEY, 59⟩ : prng_state_t).initial_seed ∧
    (⟨1, 2, PRESHARED_KEY, 59⟩ : prng_state_t).sync_counter =
      (⟨3, 4, PRESHARED_KEY, 59⟩ : prng_state_t).sync_counter ∧
    Sender.sync_encryption_on_vsync ⟨1, 2, PRESHARED_KEY, 59⟩ =
      Sender.sync_encryption_on_vsync ⟨3, 4, PRESHARED_KEY, 59⟩ ∧
    Receiver.sync_decryption_on_vsync ⟨1, 2, PRESHARED_KEY, 59⟩ =
      Receiver.sync_decryption_on_vsync ⟨3, 4, PRESHARED_KEY, 59⟩ :=
  ⟨rfl, rfl, resync_determinism ⟨1, 2, PRESHARED_KEY, 59⟩ ⟨3, 4, PRESHARED_KEY, 59⟩ rfl rfl⟩

/-! ### The keystream step -/

/-- C10 (keystream step): in both source files `xorshift128_plus` sets the new
`s0` to the old `s1`, the new `s1` to `x3` where
`x1 = s0 XOR ((s0 << 23) mod 2^64)`, `x2 = x1 XOR (x1 >> 17)`,
`x3 = x2 XOR s1 XOR (s1 >> 26)`, returns `(x3 + s1) mod 2^64`, and leaves
`initial_seed` and `sync_counter` unchanged. -/
theorem xorshift128_plus_step (s0 s1 seed counter : Nat) :
    Sender.xorshift128_plus ⟨s0, s1, seed, counter⟩ =
      ((step_spec s0 s1).1, ⟨(step_spec s0 s1).2.1, (step_spec s0 s1).2.2, seed, counter⟩) ∧
    Receiver.xorshift128_plus ⟨s0, s1, seed, counter⟩ =
      ((step_spec s0 s1).1, ⟨(step_spec s0 s1).2.1, (step_spec s0 s1).2.2, seed, counter⟩) := by
  have h : Sender.xorshift128_plus ⟨s0, s1, seed, counter⟩ =
      ((step_spec s0 s1).1, ⟨(step_spec s0 s1).2.1, (step_spec s0 s1).2.2, seed, counter⟩) := by
    simp only [Sender.xorshift128_plus, step_spec, Nat.xor_assoc]
  exact ⟨h, (receiver_step_eq _).trans h⟩

/-! ### Init and reseed -/

theorem step_spec_state (p : prng_state_t) :
    (Sender.xorshift128_plus p).2.state0 = (step_spec p.state0 p.state1).2.1 ∧
    (Sender.xorshift128_plus p).2.state1 = (step_spec p.state0 p.state1).2.2 := by
  simp only [Sender.xorshift128_plus, step_spec, Nat.xor_assoc, and_self]

theorem warm_up_steps_spec (n : Nat) (p : prng_state_t) :
    ((Sender.warm_up n p).state0, (Sender.warm_up n p).state1) =
      steps_spec n (p.state0, p.state1) := by
  induction n generalizing p with
  | zero => rfl
  | succ n ih =>
    simp only [Sender.warm_up, steps_spec]
    rw [ih, (step_spec_state p).1, (step_spec_state p).2]

/-- C11 (init / reseed): on both roles, init with the pre-shared key `K` gives
`initial_seed = K`, `sync_counter = 0` and `(s0, s1)` equal to the state reached
from `(K XOR 0xBF58476D1CE4E5B9, K XOR 0x94D049BB133111EB)` by exactly 10
applications of the keystream step, whatever the generator `g` held before. -/
theorem init_reseeds_from_key (K : Nat) (g : prng_state_t) :
    ((Sender.init_encryption K g).initial_seed = K ∧
      (Sender.init_encryption K g).sync_counter = 0 ∧
      ((Sender.init_encryption K g).state0, (Sender.init_encryption K g).state1) =
        steps_spec 10 (K ^^^ 0xBF58476D1CE4E5B9, K ^^^ 0x94D049BB133111EB)) ∧
    ((Receiver.init_decryption K g).initial_seed = K ∧
      (Receiver.init_decryption K g).sync_counter = 0 ∧
      ((Receiver.init_decryption K g).state0, (Receiver.init_decryption K g).state1) =
        steps_spec 10 (K ^^^ 0xBF58476D1CE4E5B9, K ^^^ 0x94D049BB133111EB)) := by
  have h : (Sender.init_encryption K g).initial_seed = K ∧
      (Sender.init_encryption K g).sync_counter = 0 ∧
      ((Sender.init_encryption K g).state0, (Sender.init_encryption K g).state1) =
        steps_spec 10 (K ^^^ 0xBF58476D1CE4E5B9, K ^^^ 0x94D049BB133111EB) := by
    refine ⟨init_encryption_initial_seed K g, init_encryption_sync_counter K g, ?_⟩
    unfold Sender.init_encryption
    exact warm_up_steps_spec 10 _
  rw [init_decryption_eq]
  exact ⟨h, h⟩

/-! ### The all-zero state -/

theorem shl_xor_eq_zero (x : Nat) (h : x ^^^ (x <<< 23) % 2 ^ 64 = 0) : x = 0 := by
  have h2 : x = (x <<< 23) % 2 ^ 64 := Nat.xor_eq_zero.mp h
  rw [Nat.shiftLeft_eq] at h2
  norm_num at h2
  omega

theorem shr_xor_eq_zero (x : Nat) (h : x ^^^ x >>> 17 = 0) : x = 0 := by
  have h2 : x = x >>> 17 := Nat.xor_eq_zero.mp h
  rw [Nat.shiftRight_eq_div_pow] at h2
  norm_num at h2
  omega

theorem step_zero_from_zero (p : prng_state_t)
    (h0 : (Sender.xorshift128_plus p).2.state0 = 0)
    (h1 : (Sender.xorshift128_plus p).2.state1 = 0) : p.state0 = 0 ∧ p.state1 = 0 := by
  simp only [Sender.xorshift128_plus] at h0 h1
  rw [h0] at h1
  simp only [Nat.zero_shiftRight, Nat.xor_self, Nat.xor_zero] at h1
  exact ⟨shl_xor_eq_zero _ (shr_xor_eq_zero _ h1), h0⟩

theorem warm_up_zero_from_zero (n : Nat) (p : prng_state_t)
    (h : (Sender.warm_up n p).state0 = 0 ∧ (Sender.warm_up n p).state1 = 0) :
    p.state0 = 0 ∧ p.state1 = 0 := by
  induction n generalizing p with
  | zero => exact h
  | succ n ih =>
    have h2 := ih _ h
    exact step_zero_from_zero p h2.1 h2.2

theorem reseed_start_nonzero (seed : Nat) :
    ¬ (seed ^^^ 0xBF58476D1CE4E5B9 = 0 ∧ seed ^^^ 0x94D049BB133111EB = 0) := by
  rintro ⟨ha, hb⟩
  have h1 := Nat.xor_eq_zero.mp ha
  have h2 := Nat.xor_eq_zero.mp hb
  omega

theorem init_encryption_nonzero (key : Nat) (g : prng_state_t) :
    ¬ ((Sender.init_encryption key g).state0 = 0 ∧ (Sender.init_encryption key g).state1 = 0) :=
  fun h => reseed_start_nonzero key (warm_up_zero_from_zero 10 _ h)

theorem sync_decryption_nonzero (p : prng_state_t) :
    ¬ ((Receiver.sync_decryption_on_vsync p).state0 = 0 ∧
      (Receiver.sync_decryption_on_vsync p).state1 = 0) := by
  intro h
  simp only [Receiver.sync_decryption_on_vsync, receiver_warm_up_eq] at h
  exact reseed_start_nonzero p.initial_seed (warm_up_zero_from_zero 10 _ h)

theorem sync_encryption_nonzero (p : prng_state_t) :
    ¬ ((Sender.sync_encryption_on_vsync p).state0 = 0 ∧
      (Sender.sync_encryption_on_vsync p).state1 = 0) := by
  intro h
  unfold Sender.sync_encryption_on_vsync at h
  dsimp only at h
  split at h
  · exact reseed_start_nonzero p.initial_seed (warm_up_zero_from_zero 10 _ h)
  · exact reseed_start_nonzero p.initial_seed (warm_up_zero_from_zero 10 _ h)

theorem sender_apply_nonzero (p : prng_state_t) (op : prng_op)
    (hp : ¬ (p.state0 = 0 ∧ p.state1 = 0)) :
    ¬ ((sender_apply p op).state0 = 0 ∧ (sender_apply p op).state1 = 0) := by
  cases op with
  | step => exact fun h => hp (step_zero_from_zero p h.1 h.2)
  | line input length =>
    simp only [sender_apply, encrypt_line_state]
    exact fun h => hp (warm_up_zero_from_zero _ p h)
  | resync => exact sync_encryption_nonzero p

theorem receiver_apply_nonzero (p : prng_state_t) (op : prng_op)
    (hp : ¬ (p.state0 = 0 ∧ p.state1 = 0)) :
    ¬ ((receiver_apply p op).state0 = 0 ∧ (receiver_apply p op).state1 = 0) := by
  cases op with
  | step => exact fun h => hp (step_zero_from_zero p h.1 h.2)
  | line input length =>
    simp only [receiver_apply, decrypt_line_eq, encrypt_line_state]
    exact fun h => hp (warm_up_zero_from_zero _ p h)
  | resync => exact sync_decryption_nonzero p

theorem foldl_sender_nonzero (ops : List prng_op) (p : prng_state_t)
    (hp : ¬ (p.state0 = 0 ∧ p.state1 = 0)) :
    ¬ ((ops.foldl sender_apply p).state0 = 0 ∧ (ops.foldl sender_apply p).state1 = 0) := by
  induction ops generalizing p with
  | nil => exact hp
  | cons op ops ih => exact ih _ (sender_apply_nonzero p op hp)

theorem foldl_receiver_nonzero (ops : List prng_op) (p : prng_state_t)
    (hp : ¬ (p.state0 = 0 ∧ p.state1 = 0)) :
    ¬ ((ops.foldl receiver_apply p).state0 = 0 ∧ (ops.foldl receiver_apply p).state1 = 0) := by
  induction ops generalizing p with
  | nil => exact hp
  | cons op ops ih => exact ih _ (receiver_apply_nonzero p op hp)

/-- C13 (no all-zero state): for every key, no state reached from
`init_encryption` or `init_decryption` through any finite sequence of
`xorshift128_plus` steps, `encrypt_line` / `decrypt_line` calls and resyncs has
`s0 = 0` and `s1 = 0`. -/
theorem never_all_zero (key : Nat) (g : prng_state_t) (ops : List prng_op) :
    ¬ ((sender_reach key g ops).state0 = 0 ∧ (sender_reach key g ops).state1 = 0) ∧
    ¬ ((receiver_reach key g ops).state0 = 0 ∧ (receiver_reach key g ops).state1 = 0) := by
  refine ⟨foldl_sender_nonzero ops _ (init_encryption_nonzero key g), ?_⟩
  unfold receiver_reach
  rw [init_decryption_eq]
  exact foldl_receiver_nonzero ops _ (init_encryption_nonzero key g)

/-! ### Which keystream value meets which byte -/

theorem byte_of_xor (a b j : Nat) : byte_of (a ^^^ b) j = byte_of a j ^^^ byte_of b j := by
  unfold byte_of
  apply Nat.eq_of_testBit_eq
  intro i
  simp only [← Nat.shiftRight_eq_div_pow, Nat.testBit_mod_two_pow, Nat.testBit_xor,
    Nat.testBit_shiftRight]
  cases decide (i < 8) <;> simp

theorem store32_getD (w j : Nat) (hj : j < 4) : (store32 w).getD j 0 = byte_of w j := by
  interval_cases j <;> simp [store32, byte_of]

theorem byte_of_load32 (a b c d : Nat) (l : List Nat)
    (ha : a < 256) (hb : b < 256) (hc : c < 256) (hd : d < 256) (j : Nat) (hj : j < 4) :
    byte_of (load32 (a :: b :: c :: d :: l)) j = (a :: b :: c :: d :: l).getD j 0 := by
  rw [← store32_getD _ j hj, store32_load32 a b c d l ha hb hc hd]
  interval_cases j <;> rfl

theorem getD_drop_add (l : List Nat) (k j : Nat) : (l.drop k).getD j 0 = l.getD (k + j) 0 := by
  simp only [List.getD_eq_getElem?_getD, List.getElem?_drop]

theorem sender_keystream_succ (p : prng_state_t) (i : Nat) :
    sender_keystream p (i + 1) = sender_keystream (Sender.xorshift128_plus p).2 i := rfl

theorem sender_keystream_add (p : prng_state_t) (m i : Nat) :
    sender_keystream (Sender.warm_up m p) i = sender_keystream p (m + i) := by
  unfold sender_keystream
  rw [warm_up_add]

theorem receiver_keystream_eq (p : prng_state_t) (i : Nat) :
    receiver_keystream p i = sender_keystream p i := by
  unfold receiver_keystream sender_keystream
  rw [receiver_warm_up_eq, receiver_step_eq]

theorem encrypt_words_getD (n : Nat) (p : prng_state_t) (buf : List Nat)
    (hlen : 4 * n ≤ buf.length) (hb : ∀ x ∈ buf, x < 256) (i : Nat) (hi : i < n)
    (j : Nat) (hj : j < 4) :
    (Sender.encrypt_words n p buf).1.getD (4 * i + j) 0 =
      buf.getD (4 * i + j) 0 ^^^ byte_of (sender_keystream p i % 2 ^ 32) j := by
  induction n generalizing p buf i with
  | zero => omega
  | succ n ih =>
    match buf, hlen, hb with
    | a :: b :: c :: d :: rest, hlen, hb =>
      have ha : a < 256 := hb a (by simp)
      have hb2 : b < 256 := hb b (by simp)
      have hc : c < 256 := hb c (by simp)
      have hd : d < 256 := hb d (by simp)
      have hrest : ∀ x ∈ rest, x < 256 := fun x hx => hb x (by simp [hx])
      have hl : 4 * n ≤ rest.length := by simp at hlen; omega
      simp only [Sender.encrypt_words]
      cases i with
      | zero =>
        rw [Nat.mul_zero, Nat.zero_add, List.getD_append _ _ _ _ (by simpa [store32] using hj),
          store32_getD _ j hj, byte_of_xor, byte_of_load32 a b c d rest ha hb2 hc hd j hj]
        rfl
      | succ i =>
        have hidx : 4 * (i + 1) + j = (4 * i + j) + 4 := by ring
        rw [hidx, List.getD_append_right _ _ _ _ (by simp [store32])]
        have hs : (store32 (load32 (a :: b :: c :: d :: rest) ^^^
            (Sender.xorshift128_plus p).1 % 2 ^ 32)).length = 4 := rfl
        rw [hs, Nat.add_sub_cancel, sender_keystream_succ]
        exact ih _ rest hl hrest i (by omega)
    | [], hlen, _ => simp at hlen
    | [_], hlen, _ => simp at hlen; omega
    | [_, _], hlen, _ => simp at hlen; omega
    | [_, _, _], hlen, _ => simp at hlen; omega

theorem encrypt_rem_getD (n : Nat) (p : prng_state_t) (buf : List Nat)
    (hlen : n ≤ buf.length) (hb : ∀ x ∈ buf, x < 256) (j : Nat) (hj : j < n) :
    (Sender.encrypt_rem n p buf).1.getD j 0 =
      buf.getD j 0 ^^^ sender_keystream p j % 2 ^ 8 := by
  induction n generalizing p buf j with
  | zero => omega
  | succ n ih =>
    match buf, hlen, hb with
    | a :: rest, hlen, hb =>
      have ha : a < 2 ^ 8 := hb a (by simp)
      have hrest : ∀ x ∈ rest, x < 256 := fun x hx => hb x (by simp [hx])
      have hl : n ≤ rest.length := by simp at hlen; omega
      simp only [Sender.encrypt_rem, List.getD_cons_zero, List.drop_succ_cons, List.drop_zero]
      cases j with
      | zero =>
        rw [List.getD_cons_zero, List.getD_cons_zero,
          Nat.mod_eq_of_lt (Nat.xor_lt_two_pow ha (Nat.mod_lt _ (by norm_num)))]
        rfl
      | succ j =>
        rw [List.getD_cons_succ, List.getD_cons_succ, sender_keystream_succ]
        exact ih _ rest hl hrest j (by omega)
    | [], hlen, _ => simp at hlen

theorem encrypt_line_layout (p : prng_state_t) (input : List Nat)
    (hb : ∀ x ∈ input, x < 256) :
    line_layout (sender_keystream p) input (Sender.encrypt_line p input input.length).1 := by
  have hq : 4 * (input.length / 4) ≤ input.length := by omega
  have hwl := encrypt_words_length (input.length / 4) p input
  refine ⟨encrypt_line_length p input input.length, ?_, ?_⟩
  · intro i hi j hj
    have hw := encrypt_words_getD (input.length / 4) p input hq hb i hi j hj
    unfold Sender.encrypt_line
    by_cases h : input.length % 4 > 0
    · simp only [h, if_true]
      rw [List.getD_append _ _ _ _ (by rw [hwl]; omega)]
      exact hw
    · simp only [h, if_false]
      exact hw
  · intro j hj
    have h : input.length % 4 > 0 := by omega
    unfold Sender.encrypt_line
    simp only [h, if_true]
    rw [List.getD_append_right _ _ _ _ (by rw [hwl]; omega), hwl, Nat.add_sub_cancel_left,
      encrypt_words_state,
      encrypt_rem_getD _ _ _ (by rw [List.length_drop]; omega)
        (fun x hx => hb x (List.mem_of_mem_drop hx)) j hj,
      sender_keystream_add, getD_drop_add, Nat.mul_comm]

/-- C12 (line transform, all words then remainder): for every generator state
with successive outputs `k_0, k_1, ...` and every input of `L` bytes,
`encrypt_line` and `decrypt_line` write `L` bytes in which byte `4 i + j` of
each group `i < L / 4` is the input byte XOR byte `j` (in memory order) of the
low 32 bits of `k_i`, and trailing byte `4 (L / 4) + j`, `j < L % 4`, is the
input byte XOR the low 8 bits of `k_(L / 4 + j)`; so group `i` alone draws on
`k_i` and each trailing byte on a later value of its own. -/
theorem line_transform_layout (prng : prng_state_t) (input : List Nat)
    (hb : ∀ x ∈ input, x < 256) :
    line_layout (sender_keystream prng) input
      (Sender.encrypt_line prng input input.length).1 ∧
    line_layout (receiver_keystream prng) input
      (Receiver.decrypt_line prng input input.length).1 := by
  have hk : receiver_keystream prng = sender_keystream prng :=
    funext (receiver_keystream_eq prng)
  rw [hk, decrypt_line_eq]
  exact ⟨encrypt_line_layout prng input hb, encrypt_line_layout prng input hb⟩

theorem line_transform_layout_witness :
    (∀ x ∈ [1, 2, 3, 4, 5, 6, 255], x < 256) ∧
    line_layout (sender_keystream (Sender.init_encryption PRESHARED_KEY ⟨0, 0, 0, 0⟩))
      [1, 2, 3, 4, 5, 6, 255]
      (Sender.encrypt_line (Sender.init_encryption PRESHARED_KEY ⟨0, 0, 0, 0⟩)
        [1, 2, 3, 4, 5, 6, 255] [1, 2, 3, 4, 5, 6, 255].length).1 ∧
    line_layout (receiver_keystream (Sender.init_encryption PRESHARED_KEY ⟨0, 0, 0, 0⟩))
      [1, 2, 3, 4, 5, 6, 255]
      (Receiver.decrypt_line (Sender.init_encryption PRESHARED_KEY ⟨0, 0, 0, 0⟩)
        [1, 2, 3, 4, 5, 6, 255] [1, 2, 3, 4, 5, 6, 255].length).1 :=
  ⟨by decide, line_transform_layout (Sender.init_encryption PRESHARED_KEY ⟨0, 0, 0, 0⟩)
    [1, 2, 3, 4, 5, 6, 255] (by decide)⟩
